import Mathlib

/-!
Verification of the query-resolution core of the `go-dns` responder
(`main.go`): the subdomain allow-list, the resource-record cache, and the
query handler.  Machinery from the external DNS library that the handler
relies on (record-text parsing, `SetReply`) is modelled explicitly below.
-/

/-- One parsed DNS resource record, as built by the external library from
canonical presentation text `name TTL class type data`. -/
structure RRData where
  name : String
  ttl : Nat
  rrClass : String
  rrtype : String
  rdata : String
deriving DecidableEq

/-- Splits a character list into whitespace-separated words; the second
argument accumulates the current word. -/
def splitAux : List Char → List Char → List (List Char)
  | [], w => if w = [] then [] else [w]
  | c :: cs, w =>
    if c = ' ' then (if w = [] then splitAux cs [] else w :: splitAux cs [])
    else splitAux cs (w ++ [c])

/-- Whitespace-separated words of a string. -/
def splitWords (s : String) : List (List Char) := splitAux s.data []

/-- Numeric value of a decimal digit character, `none` otherwise. -/
def digitVal (c : Char) : Option Nat :=
  if '0' ≤ c ∧ c ≤ '9' then some (c.toNat - '0'.toNat) else none

/-- Accumulating decimal reader over a character list. -/
def parseNatAux : List Char → Nat → Option Nat
  | [], acc => some acc
  | c :: cs, acc =>
    match digitVal c with
    | some d => parseNatAux cs (acc * 10 + d)
    | none => none

/-- Reads a nonempty all-digit word as a natural number. -/
def parseNatW (cs : List Char) : Option Nat :=
  if cs = [] then none else parseNatAux cs 0

/-- Rejoins the remaining words of the record data field with single spaces. -/
def joinWords : List (List Char) → List Char
  | [] => []
  | [w] => w
  | w :: ws => w ++ ' ' :: joinWords ws

/-- Modelled from the spec: the external library constructor `dns.NewRR`,
which builds a record from the canonical textual form
`name TTL class type data` (whitespace-separated fields with a numeric TTL)
and fails on anything else, yielding a nil record. -/
def parseRR (s : String) : Option RRData :=
  match splitWords s with
  | nm :: ttlW :: cls :: typ :: rest =>
    if rest = [] then none
    else
      match parseNatW ttlW with
      | some t =>
        some ⟨String.mk nm, t, String.mk cls, String.mk typ, String.mk (joinWords rest)⟩
      | none => none
  | _ => none

/-- The record cache `rrCache`: an association store from record text to the
built record (`none` standing for Go's nil record). -/
abbrev RRCache := List (String × Option RRData)

/-- Lookup in the record cache (the `rrCache.Load` step of `newRR`). -/
def cacheLoad (c : RRCache) (s : String) : Option (Option RRData) :=
  match c with
  | [] => none
  | kv :: rest => if kv.1 = s then some kv.2 else cacheLoad rest s

/-- Embedding of `newRR` from `main.go`: a cache hit returns the stored
record; a miss parses the text — the parse error is discarded, so a failed
parse yields a nil record — stores the result under the exact text, and
returns it.  The updated cache is returned alongside. -/
def newRR (c : RRCache) (s : String) : Option RRData × RRCache :=
  match cacheLoad c s with
  | some r => (r, c)
  | none => (parseRR s, (s, parseRR s) :: c)

/-- Embedding of `defaultSubdomains` from `main.go`. -/
def defaultSubdomains : List String :=
  ["t.example.com.", "ns1.t.example.com.", "www.t.example.com.", "test001.t.example.com."]

/-- Embedding of `resetSubdomains` from `main.go`: replaces any prior
allow-list wholesale with the built-in default list. -/
def resetSubdomains (_prior : List String) : List String := defaultSubdomains

/-- Membership check on the allow-list (`slices.Contains(subdomains, name)`
in `handle`). -/
def containsName (subs : List String) (name : String) : Bool := subs.contains name

/-- One DNS question of an incoming query. -/
structure DnsQuestion where
  Name : String
  Qtype : Nat
  Qclass : Nat
deriving DecidableEq

/-- DNS record-type code for A records. -/
def TypeA : Nat := 1

/-- DNS record-type code for NS records. -/
def TypeNS : Nat := 2

/-- A DNS message as the handler sees it: identifier, reply flag, question
section, answer section and additional section.  Records in the answer and
additional sections are `Option RRData`, `none` standing for a nil record. -/
structure Msg where
  Id : Nat
  Response : Bool
  Question : List DnsQuestion
  Answer : List (Option RRData)
  Extra : List (Option RRData)
deriving DecidableEq

/-- Modelled from the spec: the library reply constructor `m.SetReply(r)` —
reply flag set, identifier copied, the original (first) question echoed,
empty answer and additional sections. -/
def setReply (r : Msg) : Msg :=
  { Id := r.Id, Response := true, Question := r.Question.take 1,
    Answer := [], Extra := [] }

/-- Outcome of one call to `handle`: the out-of-bounds access on an empty
question section, a silent drop (no `WriteMsg`), or a written response.  The
drop and respond outcomes carry the record cache after the call. -/
inductive HandleResult where
  | panicked : HandleResult
  | dropped (cache : RRCache) : HandleResult
  | responded (m : Msg) (cache : RRCache) : HandleResult
deriving DecidableEq

/-- Record text built by `handle` for an allowed name
(`r.Question[0].Name + " 5 IN A 192.168.0.11"`). -/
def aRecordText (name : String) : String := name ++ " 5 IN A 192.168.0.11"

/-- Embedding of `handle` from `main.go`, with the record cache threaded
explicitly.  The unchecked `r.Question[0]` access surfaces as `panicked`
when the question section is empty. -/
def handle (subs : List String) (cache : RRCache) (r : Msg) : HandleResult :=
  match r.Question with
  | [] => .panicked
  | q :: _ =>
    if q.Qtype = TypeNS ∧ q.Name = "t.example.com." then
      let p1 := newRR cache "t.example.com. 5 IN NS ns1.t.example.com."
      let p2 := newRR p1.2 "ns1.t.example.com. 5 IN A 192.168.0.11"
      .responded { setReply r with Answer := [p1.1], Extra := [p2.1] } p2.2
    else
      if containsName subs q.Name then
        let p := newRR cache (aRecordText q.Name)
        .responded { setReply r with Answer := [p.1] } p.2
      else
        .dropped cache

/-- The fixed A record the handler serves for an allowed `name`. -/
def aRecordFor (name : String) : RRData :=
  ⟨name, 5, "IN", "A", "192.168.0.11"⟩

/-- The fixed NS record of the delegation response. -/
def nsRecord : RRData :=
  ⟨"t.example.com.", 5, "IN", "NS", "ns1.t.example.com."⟩

/-- The fixed glue A record of the delegation response. -/
def glueRecord : RRData :=
  ⟨"ns1.t.example.com.", 5, "IN", "A", "192.168.0.11"⟩

/-- A cache is well formed when every stored entry is the parse of its own
key — exactly what `newRR` ever stores. -/
def WFCache (c : RRCache) : Prop :=
  ∀ s v, cacheLoad c s = some v → v = parseRR s

/-- A domain name in canonical presentation form: nonempty and free of
spaces. -/
def ValidName (name : String) : Prop :=
  name.data ≠ [] ∧ ∀ c ∈ name.data, c ≠ ' '

instance (name : String) : Decidable (ValidName name) := by
  unfold ValidName; infer_instance

/-! Supporting lemmas -/

theorem string_data_append (s t : String) : (s ++ t).data = s.data ++ t.data := by
  cases s; cases t; rfl

theorem splitAux_token (nm : List Char) : ∀ (rest w : List Char),
    (w ≠ [] ∨ nm ≠ []) → (∀ c ∈ nm, c ≠ ' ') →
    splitAux (nm ++ ' ' :: rest) w = (w ++ nm) :: splitAux rest [] := by
  induction nm with
  | nil =>
    intro rest w hw hnm
    have hw' : w ≠ [] := by
      rcases hw with h | h
      · exact h
      · exact absurd rfl h
    simp [splitAux, hw']
  | cons c cs ih =>
    intro rest w hw hnm
    have hc : c ≠ ' ' := hnm c (List.mem_cons_self c cs)
    have hcs : ∀ x ∈ cs, x ≠ ' ' := fun x hx => hnm x (List.mem_cons_of_mem c hx)
    have hstep : splitAux ((c :: cs) ++ ' ' :: rest) w =
        splitAux (cs ++ ' ' :: rest) (w ++ [c]) := by
      simp [splitAux, hc]
    rw [hstep, ih rest (w ++ [c]) (Or.inl (by simp)) hcs]
    simp

theorem parseRR_aRecordText (name : String) (h : ValidName name) :
    parseRR (aRecordText name) = some (aRecordFor name) := by
  obtain ⟨h1, h2⟩ := h
  have hd : (aRecordText name).data = name.data ++ ' ' :: "5 IN A 192.168.0.11".data := by
    show (name ++ " 5 IN A 192.168.0.11").data = _
    rw [string_data_append]
  have hsplit : splitWords (aRecordText name) =
      name.data :: splitAux "5 IN A 192.168.0.11".data [] := by
    unfold splitWords
    rw [hd, splitAux_token name.data _ [] (Or.inr h1) h2]
    simp
  have hsuffix : splitAux "5 IN A 192.168.0.11".data [] =
      [['5'], ['I', 'N'], ['A'], ['1', '9', '2', '.', '1', '6', '8', '.', '0', '.', '1', '1']] := by
    decide
  unfold parseRR
  rw [hsplit, hsuffix]
  rfl

theorem parseRR_nsText :
    parseRR "t.example.com. 5 IN NS ns1.t.example.com." = some nsRecord := by
  decide

theorem parseRR_glueText :
    parseRR "ns1.t.example.com. 5 IN A 192.168.0.11" = some glueRecord := by
  decide

theorem newRR_wf (c : RRCache) (s : String) (h : WFCache c) :
    (newRR c s).1 = parseRR s ∧ WFCache (newRR c s).2 := by
  unfold newRR
  cases hc : cacheLoad c s with
  | some v =>
    exact ⟨h s v hc, h⟩
  | none =>
    refine ⟨rfl, ?_⟩
    intro t v hv
    simp only [cacheLoad] at hv
    by_cases hts : s = t
    · subst hts
      simp at hv
      exact hv.symm
    · rw [if_neg hts] at hv
      exact h t v hv

theorem wfCache_nil : WFCache [] := by
  intro s v h
  simp [cacheLoad] at h

theorem containsName_true_iff (subs : List String) (name : String) :
    containsName subs name = true ↔ name ∈ subs := by
  simp [containsName]

theorem handle_allowed (subs : List String) (cache : RRCache) (r : Msg)
    (q : DnsQuestion) (rest : List DnsQuestion)
    (hq : r.Question = q :: rest)
    (hmem : q.Name ∈ subs)
    (hns : ¬(q.Qtype = TypeNS ∧ q.Name = "t.example.com."))
    (hwf : WFCache cache) (hv : ValidName q.Name) :
    handle subs cache r =
      .responded { setReply r with Answer := [some (aRecordFor q.Name)] }
        (newRR cache (aRecordText q.Name)).2 := by
  have hcon : containsName subs q.Name = true := (containsName_true_iff subs q.Name).mpr hmem
  have hrr : (newRR cache (aRecordText q.Name)).1 = some (aRecordFor q.Name) := by
    rw [(newRR_wf cache _ hwf).1, parseRR_aRecordText q.Name hv]
  unfold handle
  rw [hq]
  simp only [if_neg hns, hcon, if_true, hrr]

theorem handle_dropped (subs : List String) (cache : RRCache) (r : Msg)
    (q : DnsQuestion) (rest : List DnsQuestion)
    (hq : r.Question = q :: rest)
    (hmem : q.Name ∉ subs)
    (hns : ¬(q.Qtype = TypeNS ∧ q.Name = "t.example.com.")) :
    handle subs cache r = .dropped cache := by
  have hcon : containsName subs q.Name = false := by
    rw [Bool.eq_false_iff]
    intro hc
    exact hmem ((containsName_true_iff subs q.Name).mp hc)
  unfold handle
  rw [hq]
  simp only [if_neg hns, hcon]
  simp

/-! Claim theorems -/

/-- C1: a query whose first question's name is outside the current allow-list
and is not the pair (name `t.example.com.`, type NS) is dropped — no response
is written; and a query whose first question's name is in the allow-list with
type A is answered with exactly one A record for that exact name carrying the
fixed IP 192.168.0.11. -/
theorem claim_C1_gating :
    (∀ (subs : List String) (cache : RRCache) (r : Msg)
        (q : DnsQuestion) (rest : List DnsQuestion),
      r.Question = q :: rest → q.Name ∉ subs →
      ¬(q.Name = "t.example.com." ∧ q.Qtype = TypeNS) →
      handle subs cache r = .dropped cache) ∧
    (∀ (subs : List String) (cache : RRCache) (r : Msg)
        (q : DnsQuestion) (rest : List DnsQuestion),
      r.Question = q :: rest → q.Name ∈ subs → q.Qtype = TypeA →
      WFCache cache → ValidName q.Name →
      handle subs cache r =
        .responded { setReply r with Answer := [some (aRecordFor q.Name)] }
          (newRR cache (aRecordText q.Name)).2) := by
  constructor
  · intro subs cache r q rest hq hmem hns
    exact handle_dropped subs cache r q rest hq hmem (fun h => hns ⟨h.2, h.1⟩)
  · intro subs cache r q rest hq hmem hA hwf hv
    refine handle_allowed subs cache r q rest hq hmem ?_ hwf hv
    intro h
    rw [hA] at h
    exact absurd h.1 (by decide)

/-- Witness for C1 at concrete inputs: `evil.example.com.` (type A) is
dropped, `www.t.example.com.` (type A) is answered with its fixed A record. -/
theorem claim_C1_witness :
    handle defaultSubdomains [] ⟨1, false, [⟨"evil.example.com.", TypeA, 1⟩], [], []⟩ =
      .dropped [] ∧
    handle defaultSubdomains [] ⟨2, false, [⟨"www.t.example.com.", TypeA, 1⟩], [], []⟩ =
      .responded
        { setReply ⟨2, false, [⟨"www.t.example.com.", TypeA, 1⟩], [], []⟩ with
          Answer := [some (aRecordFor "www.t.example.com.")] }
        (newRR [] (aRecordText "www.t.example.com.")).2 :=
  ⟨claim_C1_gating.1 defaultSubdomains [] _ _ _ rfl (by decide) (by decide),
   claim_C1_gating.2 defaultSubdomains [] _ _ _ rfl (by decide) rfl
     wfCache_nil (by decide)⟩

/-- C2: a query whose first question is (name `t.example.com.`, type NS) is
answered with Answer exactly the NS record
`t.example.com. 5 IN NS ns1.t.example.com.` and Extra exactly the glue record
`ns1.t.example.com. 5 IN A 192.168.0.11`, and the handler's outcome does not
depend on the current allow-list. -/
theorem claim_C2_delegation
    (subs : List String) (cache : RRCache) (r : Msg)
    (q : DnsQuestion) (rest : List DnsQuestion)
    (hq : r.Question = q :: rest)
    (htype : q.Qtype = TypeNS) (hname : q.Name = "t.example.com.")
    (hwf : WFCache cache) :
    (∃ c2, handle subs cache r =
      .responded
        { setReply r with Answer := [some nsRecord], Extra := [some glueRecord] } c2) ∧
    (∀ subs2 : List String, handle subs2 cache r = handle subs cache r) := by
  have hcond : q.Qtype = TypeNS ∧ q.Name = "t.example.com." := ⟨htype, hname⟩
  have h1 := newRR_wf cache "t.example.com. 5 IN NS ns1.t.example.com." hwf
  have h2 := newRR_wf (newRR cache "t.example.com. 5 IN NS ns1.t.example.com.").2
    "ns1.t.example.com. 5 IN A 192.168.0.11" h1.2
  constructor
  · refine ⟨(newRR (newRR cache "t.example.com. 5 IN NS ns1.t.example.com.").2
      "ns1.t.example.com. 5 IN A 192.168.0.11").2, ?_⟩
    unfold handle
    rw [hq]
    simp only [if_pos hcond]
    rw [h1.1, parseRR_nsText, h2.1, parseRR_glueText]
  · intro subs2
    unfold handle
    rw [hq]
    simp only [if_pos hcond]

/-- Witness for C2: the delegation query against the default allow-list and
the empty cache. -/
theorem claim_C2_witness :
    (∃ c2, handle defaultSubdomains []
        ⟨3, false, [⟨"t.example.com.", TypeNS, 1⟩], [], []⟩ =
      .responded
        { setReply ⟨3, false, [⟨"t.example.com.", TypeNS, 1⟩], [], []⟩ with
          Answer := [some nsRecord], Extra := [some glueRecord] } c2) ∧
    (∀ subs2 : List String, handle subs2 []
        ⟨3, false, [⟨"t.example.com.", TypeNS, 1⟩], [], []⟩ =
      handle defaultSubdomains []
        ⟨3, false, [⟨"t.example.com.", TypeNS, 1⟩], [], []⟩) :=
  claim_C2_delegation defaultSubdomains [] _ _ _ rfl rfl rfl wfCache_nil

/-- C3: allow-list membership is exact string equality — `containsName` is
true exactly on textual members, so any name not textually equal to a stored
entry (superstrings, substrings, case variants included) tests false and the
query is dropped. -/
theorem claim_C3_exact_match :
    (∀ (subs : List String) (name : String),
      containsName subs name = true ↔ name ∈ subs) ∧
    (∀ (subs : List String) (cache : RRCache) (r : Msg)
        (q : DnsQuestion) (rest : List DnsQuestion),
      r.Question = q :: rest → (∀ e ∈ subs, e ≠ q.Name) →
      ¬(q.Qtype = TypeNS ∧ q.Name = "t.example.com.") →
      containsName subs q.Name = false ∧ handle subs cache r = .dropped cache) := by
  constructor
  · exact containsName_true_iff
  · intro subs cache r q rest hq hne hns
    have hmem : q.Name ∉ subs := fun h => hne q.Name h rfl
    constructor
    · rw [Bool.eq_false_iff]
      intro hc
      exact hmem ((containsName_true_iff subs q.Name).mp hc)
    · exact handle_dropped subs cache r q rest hq hmem hns

/-- Witness for C3: `WWW.T.EXAMPLE.COM.` is a case variant of the allowed
`www.t.example.com.`, tests as not contained, and its query is dropped. -/
theorem claim_C3_witness :
    containsName defaultSubdomains "WWW.T.EXAMPLE.COM." = false ∧
    handle defaultSubdomains []
      ⟨4, false, [⟨"WWW.T.EXAMPLE.COM.", TypeA, 1⟩], [], []⟩ = .dropped [] :=
  claim_C3_exact_match.2 defaultSubdomains []
    ⟨4, false, [⟨"WWW.T.EXAMPLE.COM.", TypeA, 1⟩], [], []⟩
    ⟨"WWW.T.EXAMPLE.COM.", TypeA, 1⟩ [] rfl (by decide) (by decide)

/-- C4: from any prior allow-list state, `resetSubdomains` restores exactly
the built-in default list, so membership holds for each of the four default
names and fails for every other name; the operation is total. -/
theorem claim_C4_reset (prior : List String) :
    resetSubdomains prior = defaultSubdomains ∧
    containsName (resetSubdomains prior) "t.example.com." = true ∧
    containsName (resetSubdomains prior) "ns1.t.example.com." = true ∧
    containsName (resetSubdomains prior) "www.t.example.com." = true ∧
    containsName (resetSubdomains prior) "test001.t.example.com." = true ∧
    ∀ n : String, n ∉ defaultSubdomains → containsName (resetSubdomains prior) n = false := by
  refine ⟨rfl, ?_, ?_, ?_, ?_, ?_⟩
  · show containsName defaultSubdomains "t.example.com." = true
    decide
  · show containsName defaultSubdomains "ns1.t.example.com." = true
    decide
  · show containsName defaultSubdomains "www.t.example.com." = true
    decide
  · show containsName defaultSubdomains "test001.t.example.com." = true
    decide
  intro n hn
  rw [Bool.eq_false_iff]
  intro hc
  exact hn ((containsName_true_iff _ n).mp hc)

/-- Witness for C4 at a mutated prior state and a non-default name. -/
theorem claim_C4_witness :
    resetSubdomains ["evil.example.com."] = defaultSubdomains ∧
    containsName (resetSubdomains ["evil.example.com."]) "evil.example.com." = false :=
  ⟨(claim_C4_reset ["evil.example.com."]).1,
   (claim_C4_reset ["evil.example.com."]).2.2.2.2.2 "evil.example.com." (by decide)⟩

/-- C5: `newRR` is idempotent — after one call, the result is stored in the
cache under the exact text, and a second call with the same text is a cache
hit returning the identical stored record and leaving the cache unchanged. -/
theorem claim_C5_idempotent (c : RRCache) (s : String) :
    cacheLoad (newRR c s).2 s = some (newRR c s).1 ∧
    (newRR (newRR c s).2 s).1 = (newRR c s).1 ∧
    (newRR (newRR c s).2 s).2 = (newRR c s).2 := by
  have hload : cacheLoad (newRR c s).2 s = some (newRR c s).1 := by
    unfold newRR
    cases hc : cacheLoad c s with
    | some v => simpa using hc
    | none => simp [cacheLoad]
  refine ⟨hload, ?_, ?_⟩ <;>
    · conv_lhs => rw [newRR, hload]

/-- C6: on syntactically malformed record text, `newRR` surfaces no error —
it returns the nil record, stores that nil record in the cache under the text,
and every later call with the same text returns the cached nil record. -/
theorem claim_C6_malformed (c : RRCache) (s : String)
    (hparse : parseRR s = none) (hwf : WFCache c) :
    (newRR c s).1 = none ∧
    cacheLoad (newRR c s).2 s = some none ∧
    (newRR (newRR c s).2 s).1 = none := by
  have h1 : (newRR c s).1 = none := by
    rw [(newRR_wf c s hwf).1, hparse]
  have h2 : cacheLoad (newRR c s).2 s = some none := by
    unfold newRR
    cases hc : cacheLoad c s with
    | some v =>
      have : v = none := by rw [hwf s v hc, hparse]
      subst this
      simpa using hc
    | none => simp [cacheLoad, hparse]
  refine ⟨h1, h2, ?_⟩
  conv_lhs => rw [newRR, h2]

/-- Witness for C6: the two-word text `garbage text` fails to parse; from the
empty cache the nil record is returned, cached, and returned again. -/
theorem claim_C6_witness :
    (newRR [] "garbage text").1 = none ∧
    cacheLoad (newRR [] "garbage text").2 "garbage text" = some none ∧
    (newRR (newRR [] "garbage text").2 "garbage text").1 = none :=
  claim_C6_malformed [] "garbage text" (by decide) wfCache_nil

/-- Reachable allow-list states of the program: initialization calls
`resetSubdomains`, and `resetSubdomains` is the only mutation thereafter. -/
inductive RegistryReachable : List String → Prop
  | init : RegistryReachable defaultSubdomains
  | reset (s : List String) : RegistryReachable s → RegistryReachable (resetSubdomains s)

/-- C7: the built-in default list has four entries, every reset yields that
default wholesale, and every reachable allow-list state is the default list —
in particular the allow-list is never empty. -/
theorem claim_C7_nonempty :
    defaultSubdomains.length = 4 ∧
    (∀ prior : List String, resetSubdomains prior = defaultSubdomains) ∧
    (∀ s : List String, RegistryReachable s → s = defaultSubdomains ∧ s ≠ []) := by
  refine ⟨by decide, fun _ => rfl, ?_⟩
  intro s h
  have hs : s = defaultSubdomains := by
    cases h with
    | init => rfl
    | reset t _ => rfl
  refine ⟨hs, ?_⟩
  rw [hs]
  decide

/-- Witness for C7 at the initial state. -/
theorem claim_C7_witness :
    defaultSubdomains = defaultSubdomains ∧ defaultSubdomains ≠ [] :=
  claim_C7_nonempty.2.2 defaultSubdomains RegistryReachable.init

/-- Decision tag of a handler outcome. -/
def HandleResult.decision : HandleResult → Nat
  | .panicked => 0
  | .dropped _ => 1
  | .responded _ _ => 2

/-- Answer section of a handler outcome, when it responds. -/
def HandleResult.answers : HandleResult → Option (List (Option RRData))
  | .responded m _ => some m.Answer
  | _ => none

/-- Additional section of a handler outcome, when it responds. -/
def HandleResult.extras : HandleResult → Option (List (Option RRData))
  | .responded m _ => some m.Extra
  | _ => none

/-- C8: the handler inspects only the first question — two queries with the
same first question (whatever their further questions) get the same decision
and, on response, the same Answer and Extra record lists. -/
theorem claim_C8_first_question
    (subs : List String) (cache : RRCache) (r1 r2 : Msg)
    (hq : r1.Question.head? = r2.Question.head?) :
    (handle subs cache r1).decision = (handle subs cache r2).decision ∧
    (handle subs cache r1).answers = (handle subs cache r2).answers ∧
    (handle subs cache r1).extras = (handle subs cache r2).extras := by
  cases h1 : r1.Question with
  | nil =>
    cases h2 : r2.Question with
    | nil => simp [handle, h1, h2]
    | cons q2 t2 => rw [h1, h2] at hq; simp at hq
  | cons q t =>
    cases h2 : r2.Question with
    | nil => rw [h1, h2] at hq; simp at hq
    | cons q2 t2 =>
      rw [h1, h2] at hq
      simp only [List.head?_cons, Option.some.injEq] at hq
      subst hq
      by_cases hns : q.Qtype = TypeNS ∧ q.Name = "t.example.com."
      · simp [handle, h1, h2, hns, setReply, HandleResult.decision, HandleResult.answers,
          HandleResult.extras]
      · by_cases hcon : containsName subs q.Name
        · simp [handle, h1, h2, hns, hcon, setReply, HandleResult.decision,
            HandleResult.answers, HandleResult.extras]
        · simp [handle, h1, h2, hns, hcon, setReply, HandleResult.decision,
            HandleResult.answers, HandleResult.extras]

/-- Witness for C8: a single-question query and a two-question query sharing
their first question are treated alike. -/
theorem claim_C8_witness :
    (handle defaultSubdomains []
        ⟨1, false, [⟨"www.t.example.com.", TypeA, 1⟩], [], []⟩).decision =
      (handle defaultSubdomains []
        ⟨2, false, [⟨"www.t.example.com.", TypeA, 1⟩, ⟨"other.example.com.", TypeA, 1⟩],
          [], []⟩).decision ∧
    (handle defaultSubdomains []
        ⟨1, false, [⟨"www.t.example.com.", TypeA, 1⟩], [], []⟩).answers =
      (handle defaultSubdomains []
        ⟨2, false, [⟨"www.t.example.com.", TypeA, 1⟩, ⟨"other.example.com.", TypeA, 1⟩],
          [], []⟩).answers ∧
    (handle defaultSubdomains []
        ⟨1, false, [⟨"www.t.example.com.", TypeA, 1⟩], [], []⟩).extras =
      (handle defaultSubdomains []
        ⟨2, false, [⟨"www.t.example.com.", TypeA, 1⟩, ⟨"other.example.com.", TypeA, 1⟩],
          [], []⟩).extras :=
  claim_C8_first_question defaultSubdomains []
    ⟨1, false, [⟨"www.t.example.com.", TypeA, 1⟩], [], []⟩
    ⟨2, false, [⟨"www.t.example.com.", TypeA, 1⟩, ⟨"other.example.com.", TypeA, 1⟩],
      [], []⟩ rfl

/-- C9: for an allowed name, the question type is ignored outside the
delegation case — any query that is not (type NS, name `t.example.com.`) is
answered with the fixed A record for the queried name, whatever its type. -/
theorem claim_C9_type_ignored
    (subs : List String) (cache : RRCache) (r : Msg)
    (q : DnsQuestion) (rest : List DnsQuestion)
    (hq : r.Question = q :: rest) (hmem : q.Name ∈ subs)
    (hns : ¬(q.Qtype = TypeNS ∧ q.Name = "t.example.com."))
    (hwf : WFCache cache) (hv : ValidName q.Name) :
    handle subs cache r =
      .responded { setReply r with Answer := [some (aRecordFor q.Name)] }
        (newRR cache (aRecordText q.Name)).2 :=
  handle_allowed subs cache r q rest hq hmem hns hwf hv

/-- Witness for C9: an AAAA query (type 28) for the allowed
`www.t.example.com.` is answered with the fixed A record. -/
theorem claim_C9_witness :
    handle defaultSubdomains [] ⟨6, false, [⟨"www.t.example.com.", 28, 1⟩], [], []⟩ =
      .responded
        { setReply ⟨6, false, [⟨"www.t.example.com.", 28, 1⟩], [], []⟩ with
          Answer := [some (aRecordFor "www.t.example.com.")] }
        (newRR [] (aRecordText "www.t.example.com.")).2 :=
  claim_C9_type_ignored defaultSubdomains []
    ⟨6, false, [⟨"www.t.example.com.", 28, 1⟩], [], []⟩
    ⟨"www.t.example.com.", 28, 1⟩ [] rfl (by decide) (by decide)
    wfCache_nil (by decide)

/-- C10: the handler reads the question section at position 0 without a
bounds check — on an empty question section the access is out of bounds (the
`panicked` outcome), and with at least one question the handler never reaches
that outcome. -/
theorem claim_C10_empty_question (subs : List String) (cache : RRCache) :
    (∀ (id : Nat) (resp : Bool) (ans ex : List (Option RRData)),
      handle subs cache ⟨id, resp, [], ans, ex⟩ = .panicked) ∧
    (∀ r : Msg, r.Question ≠ [] → handle subs cache r ≠ .panicked) := by
  constructor
  · intro id resp ans ex
    rfl
  · intro r hr
    cases h : r.Question with
    | nil => exact absurd h hr
    | cons q t =>
      unfold handle
      rw [h]
      by_cases hns : q.Qtype = TypeNS ∧ q.Name = "t.example.com."
      · simp [hns]
      · by_cases hcon : containsName subs q.Name
        · simp [hns, hcon]
        · simp [hns, hcon]

/-- Witness for C10: the empty-question query panics; a one-question query
does not. -/
theorem claim_C10_witness :
    handle defaultSubdomains [] ⟨1, false, [], [], []⟩ = .panicked ∧
    handle defaultSubdomains [] ⟨1, false, [⟨"a.example.com.", TypeA, 1⟩], [], []⟩ ≠
      .panicked :=
  ⟨(claim_C10_empty_question defaultSubdomains []).1 1 false [] [],
   (claim_C10_empty_question defaultSubdomains []).2
     ⟨1, false, [⟨"a.example.com.", TypeA, 1⟩], [], []⟩ (by decide)⟩
